import Mathlib

/-!
Verification of the s-expression scanner/parser in `sexpr.go`
(package sexpr, "LISP-style symbolic expressions", based on Rob Pike's
2011 lexical-scanning talk).

The Go code is shallowly embedded as follows.

* The input string is a `List Char`: the Go lexer walks the input one
  decoded code point at a time (`utf8.DecodeRuneInString`), so positions
  are modelled at code-point granularity (`width` is 0 at end of input
  and 1 otherwise, mirroring the byte width used only by `backup`).
* The lexer context (`type lexer struct`) is the structure `Lexer`
  with the same fields (`input`, `start`, `pos`, `width`); the `items`
  channel becomes the list of items a run of the machine emits.
* Each Go state function (`lexAtom`, `lexDQuote`, `lexWhitespace`,
  `lexLeftParen`, `lexRightParen`) becomes a Lean function from a
  `Lexer` to the items it emits, the next state (`none` = the nil
  state, ending `run`), and the updated lexer.  The `for` loop inside
  `lexAtom` is unrolled into the state machine: one call of the Lean
  `lexAtom` performs exactly one iteration of the loop body, and
  "continue looping" is represented by returning to the `atomS` state,
  which is observationally identical.
* The driver `run` (`for state := lexAtom; state != nil; { state =
  state(l) }`) becomes the fuel-indexed `runLex`; `runLex fuel st l =
  some items` says the machine reaches the nil state within `fuel`
  state-function calls, emitting `items`.  `none` means the fuel was
  exhausted, so divergence of the Go loop is `∀ fuel, runLex fuel … =
  none`.
* `parse` reads from the items channel; it is embedded as a
  fuel-indexed function over the emitted item list.  In Go, once the
  lexer goroutine has closed the channel, a further receive yields the
  zero value `item{itemError, ""}` which hits `parse`'s `default:`
  branch and panics; reading from an exhausted list is modelled the
  same way.  Panics are the `panicked` result.
* `sexprUnparse` and `_sexprToDotFile` are embedded with fuel as well
  (`sexprUnparse`'s `for` loop never advances `s`, so it cannot be
  given as a terminating function); the byte channel / dot file become
  the list of emitted characters / emitted dot lines.
-/

/-! ## Items and the lexer context -/

/-- Lexer item types, in the source's `iota` order
(`itemError`, `itemRParen`, `itemLParen`, `itemEOF`, `itemAtom`). -/
inductive itemType : Type where
  | itemError : itemType
  | itemRParen : itemType
  | itemLParen : itemType
  | itemEOF : itemType
  | itemAtom : itemType
deriving DecidableEq, Repr

/-- s-expression lexer item: `type item struct { typ itemType; val string }`. -/
structure item : Type where
  typ : itemType
  val : List Char
deriving DecidableEq, Repr

/-- `l.input[start:pos]`: the Go slice of the input between two positions. -/
def subList (l : List Char) (s e : Nat) : List Char :=
  (l.drop s).take (e - s)

/-- Lexer context: `type lexer struct { name, input string; start, pos,
width int; items chan item }`.  The `name` field is only used for
reporting and the channel is the emitted-item list, so neither is a
field here. -/
structure Lexer : Type where
  input : List Char
  start : Nat
  pos : Nat
  width : Nat
deriving Repr

/-- `func (l *lexer) next() (rune int)`: advance and return the consumed
code point; at end of input set `width = 0` and return eof. -/
def Lexer.next (l : Lexer) : Option Char × Lexer :=
  match l.input[l.pos]? with
  | none => (none, { l with width := 0 })
  | some c => (some c, { l with pos := l.pos + 1, width := 1 })

/-- `func (l *lexer) backup()`: back up one rune. -/
def Lexer.backup (l : Lexer) : Lexer :=
  { l with pos := l.pos - l.width }

/-- `func (l *lexer) peek() int`: next-then-backup. -/
def Lexer.peek (l : Lexer) : Option Char × Lexer :=
  let n := l.next
  (n.1, n.2.backup)

/-- `func (l *lexer) accept(valid string) bool`: consume the next rune if
it occurs in `valid`, otherwise back up.  `strings.IndexRune(valid, eof)`
is negative, so eof never matches. -/
def Lexer.accept (l : Lexer) (valid : List Char) : Bool × Lexer :=
  let n := l.next
  match n.1 with
  | some c => if c ∈ valid then (true, n.2) else (false, n.2.backup)
  | none => (false, n.2.backup)

/-- `func (l *lexer) emit(t itemType)`: send `item{t, l.input[l.start:l.pos]}`
and advance `start`. -/
def Lexer.emit (l : Lexer) (t : itemType) : item × Lexer :=
  (⟨t, subList l.input l.start l.pos⟩, { l with start := l.pos })

/-- `func (l *lexer) ignore()`. -/
def Lexer.ignore (l : Lexer) : Lexer :=
  { l with start := l.pos }

/-! ## The state machine -/

/-- The state functions of the scanner (values of Go's `stateFn`);
`none : Option LexState` is the nil state that stops `run`. -/
inductive LexState : Type where
  | atomS : LexState
  | dquoteS : LexState
  | wsS : LexState
  | lparenS : LexState
  | rparenS : LexState
deriving DecidableEq, Repr

/-- `func emitHelper(l *lexer, t itemType, nextState stateFn) stateFn`:
emit the pending region if nonempty.  The next state is returned by the
callers below. -/
def emitHelper (l : Lexer) (t : itemType) : List item × Lexer :=
  if l.start < l.pos then
    let e := l.emit t
    ([e.1], e.2)
  else
    ([], l)

/-- Is this one of the scanner's whitespace characters? -/
def isWsChar (c : Char) : Bool :=
  c = ' ' || c = '\t' || c = '\r' || c = '\n'

/-- One iteration of the `for` loop in `func lexAtom(l *lexer) stateFn`.
The loop tests `peek` against `(`, `)`, `"` and whitespace in order,
otherwise consumes one rune via `next` (breaking at eof to flush the
pending atom and emit `itemEOF`). -/
def lexAtom (l : Lexer) : List item × Option LexState × Lexer :=
  match l.peek with
  | (none, l1) =>
      let f := emitHelper l1 itemType.itemAtom
      let e2 := f.2.emit itemType.itemEOF
      (f.1 ++ [e2.1], none, e2.2)
  | (some c, l1) =>
      if c = '(' then
        let f := emitHelper l1 itemType.itemAtom
        (f.1, some LexState.lparenS, f.2)
      else if c = ')' then
        let f := emitHelper l1 itemType.itemAtom
        (f.1, some LexState.rparenS, f.2)
      else if c = '"' then
        let f := emitHelper l1 itemType.itemAtom
        let n := f.2.next
        (f.1, some LexState.dquoteS, n.2)
      else if isWsChar c then
        let f := emitHelper l1 itemType.itemAtom
        (f.1, some LexState.wsS, f.2)
      else
        let n := l1.next
        ([], some LexState.atomS, n.2)

/-- `func lexDQuote(l *lexer) stateFn`: accept a closing `"` and emit the
region (including both quote characters) as `itemAtom`, otherwise
consume one rune and stay in this state.  Note there is no end-of-input
case: at eof both `accept` and `next` leave `pos` unchanged. -/
def lexDQuote (l : Lexer) : List item × Option LexState × Lexer :=
  let a := l.accept ['"']
  if a.1 then
    let e := a.2.emit itemType.itemAtom
    ([e.1], some LexState.atomS, e.2)
  else
    let n := a.2.next
    ([], some LexState.dquoteS, n.2)

/-- `func lexWhitespace(l *lexer) stateFn`: accept-and-ignore one
whitespace rune, else return to `lexAtom`. -/
def lexWhitespace (l : Lexer) : List item × Option LexState × Lexer :=
  let a := l.accept [' ', '\r', '\n', '\t']
  if a.1 then
    ([], some LexState.wsS, a.2.ignore)
  else
    ([], some LexState.atomS, a.2)

/-- `func lexLeftParen(l *lexer) stateFn`: `l.pos += 1; l.emit(itemLParen)`. -/
def lexLeftParen (l : Lexer) : List item × Option LexState × Lexer :=
  let l1 : Lexer := { l with pos := l.pos + 1 }
  let e := l1.emit itemType.itemLParen
  ([e.1], some LexState.atomS, e.2)

/-- `func lexRightParen(l *lexer) stateFn`: `l.pos += 1; l.emit(itemRParen)`. -/
def lexRightParen (l : Lexer) : List item × Option LexState × Lexer :=
  let l1 : Lexer := { l with pos := l.pos + 1 }
  let e := l1.emit itemType.itemRParen
  ([e.1], some LexState.atomS, e.2)

/-- Dispatch a state value to its state function. -/
def stepLex (st : LexState) (l : Lexer) : List item × Option LexState × Lexer :=
  match st with
  | LexState.atomS => lexAtom l
  | LexState.dquoteS => lexDQuote l
  | LexState.wsS => lexWhitespace l
  | LexState.lparenS => lexLeftParen l
  | LexState.rparenS => lexRightParen l

/-- `func (l *lexer) run()`: spin until the state is nil.  Fuel-indexed:
`some items` means the loop finished within `fuel` state-function calls
having emitted `items`; `none` means it did not finish. -/
def runLex : Nat → Option LexState → Lexer → Option (List item)
  | _, none, _ => some []
  | 0, some _, _ => none
  | Nat.succ n, some st, l =>
      let r := stepLex st l
      (runLex n r.2.1 r.2.2).map (fun ts => r.1 ++ ts)

/-- The lexer built by `func lex(name, input string)`. -/
def initLexer (s : List Char) : Lexer :=
  ⟨s, 0, 0, 0⟩

/-- Scan an input: run the goroutine body from the initial `lexAtom`
state on a fresh lexer. -/
def scan (fuel : Nat) (s : List Char) : Option (List item) :=
  runLex fuel (some LexState.atomS) (initLexer s)

/-! ## The s-expression structure and the parser -/

/-- s-expression atom types (`atomBasic`, `atomInvalid`); the source
comments that quoted atoms are *not* yet distinguished. -/
inductive atomType : Type where
  | atomBasic : atomType
  | atomInvalid : atomType
deriving DecidableEq, Repr

/-- s-expression element types: atoms or lists. -/
inductive sexprType : Type where
  | sexprAtom : sexprType
  | sexprList : sexprType
deriving DecidableEq, Repr

/-- `type sexpr struct { aty atomType; sty sexprType; next *sexpr;
list *sexpr; val string }`; nil pointers are `none`. -/
inductive Sexpr : Type where
  | mk (aty : atomType) (sty : sexprType) (next : Option Sexpr)
      (list : Option Sexpr) (val : List Char) : Sexpr

/-- Field accessor for `aty`. -/
def Sexpr.aty : Sexpr → atomType
  | .mk a _ _ _ _ => a

/-- Field accessor for `sty`. -/
def Sexpr.sty : Sexpr → sexprType
  | .mk _ s _ _ _ => s

/-- Field accessor for `next`. -/
def Sexpr.next : Sexpr → Option Sexpr
  | .mk _ _ n _ _ => n

/-- Field accessor for `list`. -/
def Sexpr.list : Sexpr → Option Sexpr
  | .mk _ _ _ li _ => li

/-- Field accessor for `val`. -/
def Sexpr.val : Sexpr → List Char
  | .mk _ _ _ _ v => v

/-- Result of a `parse` call: the returned root together with the items
left unread on the channel, or a runtime panic, or fuel exhaustion. -/
inductive ParseOut : Type where
  | ok (root : Option Sexpr) (rest : List item) : ParseOut
  | panicked (msg : List Char) : ParseOut
  | fuelOut : ParseOut

/-- The panic message of `parse`'s `default:` branch. -/
def badLexMsg : List Char :=
  ("Bad lex item type").toList

/-- `func parse(ch chan item) *sexpr`, over the list of items the lexer
emits.  Reading from an exhausted list models receiving from the closed
channel, which in Go yields the zero item `item{itemError, ""}` and so
also reaches the `default: panic("Bad lex item type")` branch. -/
def parse : Nat → List item → ParseOut
  | 0, _ => ParseOut.fuelOut
  | Nat.succ _, [] => ParseOut.panicked badLexMsg
  | Nat.succ n, ⟨itemType.itemLParen, _⟩ :: rest =>
      match parse n rest with
      | ParseOut.ok slist r1 =>
          match parse n r1 with
          | ParseOut.ok snext r2 =>
              ParseOut.ok (some (Sexpr.mk atomType.atomInvalid
                sexprType.sexprList snext slist [])) r2
          | e => e
      | e => e
  | Nat.succ _, ⟨itemType.itemRParen, _⟩ :: rest => ParseOut.ok none rest
  | Nat.succ n, ⟨itemType.itemAtom, v⟩ :: rest =>
      match parse n rest with
      | ParseOut.ok snext r =>
          ParseOut.ok (some (Sexpr.mk atomType.atomBasic
            sexprType.sexprAtom snext none v)) r
      | e => e
  | Nat.succ _, ⟨itemType.itemEOF, _⟩ :: rest => ParseOut.ok none rest
  | Nat.succ _, ⟨itemType.itemError, _⟩ :: _ => ParseOut.panicked badLexMsg

/-! ## The unparser -/

/-- `func sexprUnparse(s *sexpr, ch chan byte)`.  The emitted characters
are collected in order; `none` means the call did not finish within
`fuel` loop iterations.  The body is one iteration of the source's
`for s != nil` loop: emit the element (parenthesised recursive contents
for a list, the value's characters for an atom), then if `s.next` is
non-nil emit a space and recursively unparse it — and then iterate
again with `s` unchanged, exactly as in the source, which never
advances `s`. -/
def sexprUnparse : Nat → Option Sexpr → Option (List Char)
  | _, none => some []
  | 0, some _ => none
  | Nat.succ n, some s =>
      match sexprUnparse n s.list, s.sty with
      | none, sexprType.sexprList => none
      | some inner, sexprType.sexprList =>
          match (match s.next with
                 | none => some []
                 | some nx => (sexprUnparse n (some nx)).map
                     (fun t => ' ' :: t)) with
          | none => none
          | some tail =>
              (sexprUnparse n (some s)).map
                (fun rest => ('(' :: inner ++ [')']) ++ tail ++ rest)
      | _, sexprType.sexprAtom =>
          match (match s.next with
                 | none => some []
                 | some nx => (sexprUnparse n (some nx)).map
                     (fun t => ' ' :: t)) with
          | none => none
          | some tail =>
              (sexprUnparse n (some s)).map
                (fun rest => s.val ++ tail ++ rest)

/-! ## The graphviz dot exporter -/

/-- One line emitted by `_sexprToDotFile`: a node record
(`sx<id> [shape=record,label="<type> ATOM value=<val> …"]` or
`… <type> LIST …`), or an edge between record fields. -/
inductive DotLine : Type where
  | recAtom (id : Nat) (val : List Char) : DotLine
  | recList (id : Nat) : DotLine
  | edgeList (src dst : Nat) : DotLine
  | edgeNext (src dst : Nat) : DotLine
deriving DecidableEq, Repr

/-- `func _sexprToDotFile(s *sexpr, file *os.File, id int) int`, with the
emitted lines collected in print order and the returned counter in the
second component.  `none` means the recursion did not finish within
`fuel` calls. -/
def sexprToDotFileAux : Nat → Sexpr → Nat → Option (List DotLine × Nat)
  | 0, _, _ => none
  | Nat.succ n, s, id =>
      let head : DotLine :=
        match s.sty with
        | sexprType.sexprAtom => DotLine.recAtom id s.val
        | sexprType.sexprList => DotLine.recList id
      if s.sty = sexprType.sexprAtom then
        match s.next with
        | some nx =>
            match sexprToDotFileAux n nx (id + 1) with
            | none => none
            | some (ls, nid) =>
                some (head :: ls ++ [DotLine.edgeNext id (id + 1)], nid + 1)
        | none => some ([head], id + 1)
      else
        match s.list with
        | some li =>
            match sexprToDotFileAux n li (id + 1) with
            | none => none
            | some (ls1, listId) =>
                match s.next with
                | some nx =>
                    match sexprToDotFileAux n nx listId with
                    | none => none
                    | some (ls2, nid) =>
                        some (head :: ls1 ++ [DotLine.edgeList id (id + 1)]
                          ++ ls2 ++ [DotLine.edgeNext id listId], nid + 1)
                | none =>
                    some (head :: ls1 ++ [DotLine.edgeList id (id + 1)],
                      id + 1)
        | none =>
            match s.next with
            | some nx =>
                match sexprToDotFileAux n nx (id + 1) with
                | none => none
                | some (ls2, nid) =>
                    some (head :: ls2 ++ [DotLine.edgeNext id (id + 1)],
                      nid + 1)
            | none => some ([head], id + 1)

/-- `func sexprToDotFile(s *sexpr, filename string)`: the body between
the `digraph sexp {` header and the closing brace is the helper run
with counter 1. -/
def sexprToDotFile (fuel : Nat) (s : Sexpr) : Option (List DotLine × Nat) :=
  sexprToDotFileAux fuel s 1

/-- The node identifiers of the emitted records, in emission order. -/
def dotRecordIds (ls : List DotLine) : List Nat :=
  ls.filterMap (fun d =>
    match d with
    | DotLine.recAtom i _ => some i
    | DotLine.recList i => some i
    | _ => none)

/-! ## A structurally recursive characterization of the scanner

`refTokensD rem pending` (resp. `refTokensQ rem acc`) computes the items
the machine will emit from the `lexAtom` (resp. `lexDQuote`) state when
`rem` is the input from the cursor on and `pending`/`acc` is the slice
between `start` and `pos`.  `refTokensQ [] acc` is unreachable for any
run of the machine that terminates (the machine loops forever there);
its value is chosen arbitrarily. -/

/-- The pending region flushed as an `itemAtom` when nonempty
(cf. `emitHelper`). -/
def flushPend (p : List Char) : List item :=
  if p = [] then [] else [⟨itemType.itemAtom, p⟩]

mutual

/-- Items emitted from the `lexAtom` state onwards. -/
def refTokensD : List Char → List Char → List item
  | [], p => flushPend p ++ [⟨itemType.itemEOF, []⟩]
  | c :: r, p =>
      if c = '(' then
        flushPend p ++ ⟨itemType.itemLParen, ['(']⟩ :: refTokensD r []
      else if c = ')' then
        flushPend p ++ ⟨itemType.itemRParen, [')']⟩ :: refTokensD r []
      else if c = '"' then
        flushPend p ++ refTokensQ r ['"']
      else if isWsChar c then
        flushPend p ++ refTokensD r []
      else
        refTokensD r (p ++ [c])

/-- Items emitted from the `lexDQuote` state onwards. -/
def refTokensQ : List Char → List Char → List item
  | [], _ => [⟨itemType.itemEOF, []⟩]
  | c :: r, acc =>
      if c = '"' then
        ⟨itemType.itemAtom, acc ++ ['"']⟩ :: refTokensD r []
      else
        refTokensQ r (acc ++ [c])

end

/-! ## Spec-side counting functions for the token-count property -/

mutual

/-- Parenthesis characters of the input that the scanner meets in its
default state (i.e. not inside a quoted literal). -/
def parensOutside : List Char → Nat
  | [] => 0
  | c :: r =>
      if c = '(' then parensOutside r + 1
      else if c = ')' then parensOutside r + 1
      else if c = '"' then parensInQuote r
      else parensOutside r

/-- Same, while inside a quoted literal. -/
def parensInQuote : List Char → Nat
  | [] => 0
  | c :: r => if c = '"' then parensOutside r else parensInQuote r

end

mutual

/-- Number of atom and quoted-atom runs of the input, scanning in the
default state; the flag records whether a bare-atom run is open. -/
def runsD : List Char → Bool → Nat
  | [], b => if b then 1 else 0
  | c :: r, b =>
      if c = '(' then (if b then 1 else 0) + runsD r false
      else if c = ')' then (if b then 1 else 0) + runsD r false
      else if c = '"' then (if b then 1 else 0) + runsQ r
      else if isWsChar c then (if b then 1 else 0) + runsD r false
      else runsD r true

/-- Same, while inside a quoted literal (which counts as one run once
it closes). -/
def runsQ : List Char → Nat
  | [] => 0
  | c :: r => if c = '"' then 1 + runsD r false else runsQ r

end

/-- Raw count of parenthesis characters anywhere in the input. -/
def rawParens (s : List Char) : Nat :=
  s.countP (fun c => c = '(' || c = ')')

/-- Dropping a whitespace prefix does not lengthen a list. -/
theorem dropWhileWs_length_le (r : List Char) :
    (r.dropWhile isWsChar).length ≤ r.length := by
  induction r with
  | nil => simp [List.dropWhile]
  | cons c r ih =>
      simp only [List.dropWhile]
      split
      · exact Nat.le_trans ih (Nat.le_succ _)
      · simp

mutual

/-- Collapse every maximal whitespace run outside quoted literals to a
single space, leaving all other characters (and the inside of quoted
literals) unchanged.  Two texts differ only in the length and
composition of their separating whitespace runs exactly when their
collapses coincide. -/
def collapseD : List Char → List Char
  | [] => []
  | c :: r =>
      if c = '"' then '"' :: collapseQ r
      else if isWsChar c then ' ' :: collapseD (r.dropWhile isWsChar)
      else c :: collapseD r
termination_by r => r.length
decreasing_by
  all_goals simp_wf
  all_goals exact Nat.lt_succ_of_le (dropWhileWs_length_le r)

/-- Collapse, while inside a quoted literal. -/
def collapseQ : List Char → List Char
  | [] => []
  | c :: r => if c = '"' then '"' :: collapseD r else c :: collapseQ r
termination_by r => r.length
decreasing_by
  all_goals simp_wf

end

/-! ## Helper lemmas about input slices -/

/-- An empty slice. -/
theorem subList_self (l : List Char) (p : Nat) : subList l p p = [] := by
  simp [subList]

/-- The character at the cursor, read off the remaining input. -/
theorem getElem_of_drop_eq {l : List Char} {p : Nat} {c : Char} {r : List Char}
    (h : l.drop p = c :: r) : l[p]? = some c := by
  have h0 : (l.drop p)[0]? = some c := by rw [h]; simp
  rw [List.getElem?_drop] at h0
  simpa using h0

/-- At the end of the input there is no character to read. -/
theorem getElem_of_drop_nil {l : List Char} {p : Nat}
    (h : l.drop p = []) : l[p]? = none :=
  List.getElem?_eq_none (List.drop_eq_nil_iff.mp h)

/-- Advancing the cursor past the character it faces. -/
theorem drop_succ_of_drop_eq {l : List Char} {p : Nat} {c : Char} {r : List Char}
    (h : l.drop p = c :: r) : l.drop (p + 1) = r := by
  have h1 : l.drop (p + 1) = (l.drop p).drop 1 := (List.drop_drop 1 p l).symm
  rw [h1, h, List.drop_one, List.tail_cons]

/-- A cursor facing a character is inside the input. -/
theorem lt_length_of_drop_eq {l : List Char} {p : Nat} {c : Char} {r : List Char}
    (h : l.drop p = c :: r) : p < l.length := by
  by_contra hc
  push_neg at hc
  rw [List.drop_eq_nil_iff.mpr hc] at h
  exact List.noConfusion h

/-- Consuming the character at the cursor extends the pending slice. -/
theorem subList_extend {l : List Char} {s p : Nat} {c : Char} {r : List Char}
    (hs : s ≤ p) (h : l.drop p = c :: r) :
    subList l s (p + 1) = subList l s p ++ [c] := by
  unfold subList
  have h1 : p + 1 - s = (p - s) + 1 := by omega
  rw [h1, List.take_succ]
  have h2 : (l.drop s)[p - s]? = some c := by
    rw [List.getElem?_drop]
    have h3 : s + (p - s) = p := by omega
    rw [h3]
    exact getElem_of_drop_eq h
  rw [h2]
  rfl

/-- A pending slice between distinct positions inside the input is
nonempty. -/
theorem subList_ne_nil {l : List Char} {s p : Nat}
    (hlt : s < p) (hp : p ≤ l.length) : subList l s p ≠ [] := by
  unfold subList
  intro h
  have h1 : ((l.drop s).take (p - s)).length = 0 := by rw [h]; rfl
  rw [List.length_take, List.length_drop] at h1
  omega

/-- `emitHelper` emits exactly the flush of the pending slice, and in
both branches the updated lexer has `start = pos`. -/
theorem emitHelper_eq_flush {l : Lexer} (hs : l.start ≤ l.pos)
    (hp : l.pos ≤ l.input.length) :
    emitHelper l itemType.itemAtom =
      (flushPend (subList l.input l.start l.pos), { l with start := l.pos }) := by
  unfold emitHelper flushPend Lexer.emit
  rcases Nat.lt_or_ge l.start l.pos with hlt | hge
  · rw [if_pos hlt, if_neg (subList_ne_nil hlt hp)]
  · have heq : l.start = l.pos := Nat.le_antisymm hs hge
    rw [if_neg (by omega), heq, subList_self, if_pos rfl]
    cases l
    simp_all

/-! ## The configuration invariant and the simulation theorem -/

/-- What the machine will emit from a given state and lexer, according
to the reference functions. -/
def refOf : LexState → Lexer → List item
  | LexState.atomS, l => refTokensD (l.input.drop l.pos) (subList l.input l.start l.pos)
  | LexState.dquoteS, l => refTokensQ (l.input.drop l.pos) (subList l.input l.start l.pos)
  | LexState.wsS, l => refTokensD (l.input.drop l.pos) []
  | LexState.lparenS, l => refTokensD (l.input.drop l.pos) []
  | LexState.rparenS, l => refTokensD (l.input.drop l.pos) []

/-- Invariant of reachable configurations: `start ≤ pos ≤ length`; in
the whitespace and paren states the pending region is empty, and the
paren states face their parenthesis. -/
def LexInv : LexState → Lexer → Prop
  | LexState.atomS, l => l.start ≤ l.pos ∧ l.pos ≤ l.input.length
  | LexState.dquoteS, l => l.start ≤ l.pos ∧ l.pos ≤ l.input.length
  | LexState.wsS, l => l.start = l.pos ∧ l.pos ≤ l.input.length
  | LexState.lparenS, l =>
      l.start = l.pos ∧ ∃ r, l.input.drop l.pos = '(' :: r
  | LexState.rparenS, l =>
      l.start = l.pos ∧ ∃ r, l.input.drop l.pos = ')' :: r

/-! ### Step lemmas: one state-function call per reachable configuration -/

/-- `lexAtom` at end of input: flush and emit `itemEOF`, stop. -/
theorem step_atom_eof {l : Lexer} (hs : l.start ≤ l.pos)
    (hp : l.pos ≤ l.input.length) (h : l.input.drop l.pos = []) :
    stepLex LexState.atomS l =
      (flushPend (subList l.input l.start l.pos) ++ [⟨itemType.itemEOF, []⟩],
        none, { l with width := 0, start := l.pos }) := by
  have h1 : emitHelper { l with width := 0 } itemType.itemAtom =
      (flushPend (subList l.input l.start l.pos),
        { l with width := 0, start := l.pos }) := by
    have := emitHelper_eq_flush (l := { l with width := 0 }) hs hp
    simpa using this
  simp [stepLex, lexAtom, Lexer.peek, Lexer.next, Lexer.backup,
    getElem_of_drop_nil h, h1, Lexer.emit, subList_self]

/-- `lexAtom` facing `(`: flush pending, go to `lexLeftParen`. -/
theorem step_atom_lparen {l : Lexer} {r : List Char} (hs : l.start ≤ l.pos)
    (hp : l.pos ≤ l.input.length) (h : l.input.drop l.pos = '(' :: r) :
    stepLex LexState.atomS l =
      (flushPend (subList l.input l.start l.pos), some LexState.lparenS,
        { l with width := 1, start := l.pos }) := by
  have h1 : emitHelper { l with width := 1 } itemType.itemAtom =
      (flushPend (subList l.input l.start l.pos),
        { l with width := 1, start := l.pos }) := by
    have := emitHelper_eq_flush (l := { l with width := 1 }) hs hp
    simpa using this
  simp [stepLex, lexAtom, Lexer.peek, Lexer.next, Lexer.backup,
    getElem_of_drop_eq h, h1]

/-- `lexAtom` facing `)`: flush pending, go to `lexRightParen`. -/
theorem step_atom_rparen {l : Lexer} {r : List Char} (hs : l.start ≤ l.pos)
    (hp : l.pos ≤ l.input.length) (h : l.input.drop l.pos = ')' :: r) :
    stepLex LexState.atomS l =
      (flushPend (subList l.input l.start l.pos), some LexState.rparenS,
        { l with width := 1, start := l.pos }) := by
  have h1 : emitHelper { l with width := 1 } itemType.itemAtom =
      (flushPend (subList l.input l.start l.pos),
        { l with width := 1, start := l.pos }) := by
    have := emitHelper_eq_flush (l := { l with width := 1 }) hs hp
    simpa using this
  simp [stepLex, lexAtom, Lexer.peek, Lexer.next, Lexer.backup,
    getElem_of_drop_eq h, h1]

/-- `lexAtom` facing `"`: flush pending, consume the quote, go to
`lexDQuote`. -/
theorem step_atom_quote {l : Lexer} {r : List Char} (hs : l.start ≤ l.pos)
    (hp : l.pos ≤ l.input.length) (h : l.input.drop l.pos = '"' :: r) :
    stepLex LexState.atomS l =
      (flushPend (subList l.input l.start l.pos), some LexState.dquoteS,
        { l with width := 1, start := l.pos, pos := l.pos + 1 }) := by
  have h1 : emitHelper { l with width := 1 } itemType.itemAtom =
      (flushPend (subList l.input l.start l.pos),
        { l with width := 1, start := l.pos }) := by
    have := emitHelper_eq_flush (l := { l with width := 1 }) hs hp
    simpa using this
  simp [stepLex, lexAtom, Lexer.peek, Lexer.next, Lexer.backup,
    getElem_of_drop_eq h, h1]

/-- `lexAtom` facing whitespace: flush pending, go to `lexWhitespace`. -/
theorem step_atom_ws {l : Lexer} {c : Char} {r : List Char}
    (hs : l.start ≤ l.pos) (hp : l.pos ≤ l.input.length)
    (h : l.input.drop l.pos = c :: r) (hw : isWsChar c)
    (h1 : c ≠ '(') (h2 : c ≠ ')') (h3 : c ≠ '"') :
    stepLex LexState.atomS l =
      (flushPend (subList l.input l.start l.pos), some LexState.wsS,
        { l with width := 1, start := l.pos }) := by
  have h4 : emitHelper { l with width := 1 } itemType.itemAtom =
      (flushPend (subList l.input l.start l.pos),
        { l with width := 1, start := l.pos }) := by
    have := emitHelper_eq_flush (l := { l with width := 1 }) hs hp
    simpa using this
  simp [stepLex, lexAtom, Lexer.peek, Lexer.next, Lexer.backup,
    getElem_of_drop_eq h, h4, h1, h2, h3, hw]

/-- `lexAtom` facing an ordinary character: consume it into the pending
region. -/
theorem step_atom_other {l : Lexer} {c : Char} {r : List Char}
    (h : l.input.drop l.pos = c :: r) (hw : isWsChar c = false)
    (h1 : c ≠ '(') (h2 : c ≠ ')') (h3 : c ≠ '"') :
    stepLex LexState.atomS l =
      ([], some LexState.atomS, { l with width := 1, pos := l.pos + 1 }) := by
  simp [stepLex, lexAtom, Lexer.peek, Lexer.next, Lexer.backup,
    getElem_of_drop_eq h, h1, h2, h3, hw]

/-- `lexDQuote` facing the closing quote: consume it and emit the whole
region (both quotes included) as an `itemAtom`. -/
theorem step_dquote_close {l : Lexer} {r : List Char}
    (h : l.input.drop l.pos = '"' :: r) :
    stepLex LexState.dquoteS l =
      ([⟨itemType.itemAtom, subList l.input l.start (l.pos + 1)⟩],
        some LexState.atomS,
        { l with width := 1, pos := l.pos + 1, start := l.pos + 1 }) := by
  simp [stepLex, lexDQuote, Lexer.accept, Lexer.next, Lexer.backup,
    getElem_of_drop_eq h, Lexer.emit]

/-- `lexDQuote` facing any other character: consume it and stay. -/
theorem step_dquote_other {l : Lexer} {c : Char} {r : List Char}
    (h : l.input.drop l.pos = c :: r) (h3 : c ≠ '"') :
    stepLex LexState.dquoteS l =
      ([], some LexState.dquoteS, { l with width := 1, pos := l.pos + 1 }) := by
  simp [stepLex, lexDQuote, Lexer.accept, Lexer.next, Lexer.backup,
    getElem_of_drop_eq h, h3]

/-- `lexDQuote` at end of input: `accept` fails and `next` does not
advance, so the machine stays in the same configuration forever. -/
theorem step_dquote_eof {l : Lexer} (h : l.input.drop l.pos = []) :
    stepLex LexState.dquoteS l =
      ([], some LexState.dquoteS, { l with width := 0 }) := by
  simp [stepLex, lexDQuote, Lexer.accept, Lexer.next, Lexer.backup,
    getElem_of_drop_nil h]

/-- `lexWhitespace` facing whitespace: consume and discard it. -/
theorem step_ws_ws {l : Lexer} {c : Char} {r : List Char}
    (h : l.input.drop l.pos = c :: r) (hw : isWsChar c) :
    stepLex LexState.wsS l =
      ([], some LexState.wsS,
        { l with width := 1, pos := l.pos + 1, start := l.pos + 1 }) := by
  have hmem : c ∈ [' ', '\r', '\n', '\t'] := by
    simp [isWsChar] at hw
    simp only [List.mem_cons, List.not_mem_nil, or_false]
    tauto
  simp [stepLex, lexWhitespace, Lexer.accept, Lexer.next, Lexer.backup,
    getElem_of_drop_eq h, hmem, Lexer.ignore]

/-- `lexWhitespace` facing a non-whitespace character: back to
`lexAtom` without consuming. -/
theorem step_ws_other {l : Lexer} {c : Char} {r : List Char}
    (h : l.input.drop l.pos = c :: r) (hw : isWsChar c = false) :
    stepLex LexState.wsS l =
      ([], some LexState.atomS, { l with width := 1 }) := by
  have hmem : c ∉ [' ', '\r', '\n', '\t'] := by
    simp [isWsChar] at hw
    simp only [List.mem_cons, List.not_mem_nil, or_false]
    tauto
  simp [stepLex, lexWhitespace, Lexer.accept, Lexer.next, Lexer.backup,
    getElem_of_drop_eq h, hmem]

/-- `lexWhitespace` at end of input: back to `lexAtom`. -/
theorem step_ws_eof {l : Lexer} (h : l.input.drop l.pos = []) :
    stepLex LexState.wsS l =
      ([], some LexState.atomS, { l with width := 0 }) := by
  simp [stepLex, lexWhitespace, Lexer.accept, Lexer.next, Lexer.backup,
    getElem_of_drop_nil h]

/-- `lexLeftParen`: emit the parenthesis character. -/
theorem step_lparen {l : Lexer} {r : List Char} (hst : l.start = l.pos)
    (h : l.input.drop l.pos = '(' :: r) :
    stepLex LexState.lparenS l =
      ([⟨itemType.itemLParen, ['(']⟩], some LexState.atomS,
        { l with pos := l.pos + 1, start := l.pos + 1 }) := by
  have hv : subList l.input l.pos (l.pos + 1) = ['('] := by
    have := subList_extend (Nat.le_refl l.pos) h
    rwa [subList_self] at this
  simp [stepLex, lexLeftParen, Lexer.emit, hst, hv]

/-- `lexRightParen`: emit the parenthesis character. -/
theorem step_rparen {l : Lexer} {r : List Char} (hst : l.start = l.pos)
    (h : l.input.drop l.pos = ')' :: r) :
    stepLex LexState.rparenS l =
      ([⟨itemType.itemRParen, [')']⟩], some LexState.atomS,
        { l with pos := l.pos + 1, start := l.pos + 1 }) := by
  have hv : subList l.input l.pos (l.pos + 1) = [')'] := by
    have := subList_extend (Nat.le_refl l.pos) h
    rwa [subList_self] at this
  simp [stepLex, lexRightParen, Lexer.emit, hst, hv]

/-- Simulation: whenever the machine's `run` loop terminates, the items
it emitted are those computed by the reference functions for its
starting configuration. -/
theorem runLex_eq_ref (n : Nat) :
    ∀ (st : LexState) (l : Lexer) (ts : List item),
      LexInv st l → runLex n (some st) l = some ts → ts = refOf st l := by
  induction n with
  | zero =>
      intro st l ts _ h
      simp [runLex] at h
  | succ n ih =>
      intro st l ts hInv hrun
      cases st with
      | atomS =>
          obtain ⟨hs, hp⟩ := hInv
          simp only [runLex] at hrun
          cases hdrop : l.input.drop l.pos with
          | nil =>
              rw [step_atom_eof hs hp hdrop] at hrun
              simp only [runLex, Option.map_some'] at hrun
              obtain rfl : _ = ts := Option.some.inj hrun
              simp [refOf, hdrop, refTokensD]
          | cons c r =>
              have hlt := lt_length_of_drop_eq hdrop
              by_cases h1 : c = '('
              · subst h1
                rw [step_atom_lparen hs hp hdrop] at hrun
                obtain ⟨ts1, hts1, hb⟩ := Option.map_eq_some'.mp hrun
                have hInv1 : LexInv LexState.lparenS
                    { l with width := 1, start := l.pos } := ⟨rfl, r, hdrop⟩
                rw [← hb, ih _ _ _ hInv1 hts1]
                simp [refOf, hdrop, refTokensD, flushPend]
              · by_cases h2 : c = ')'
                · subst h2
                  rw [step_atom_rparen hs hp hdrop] at hrun
                  obtain ⟨ts1, hts1, hb⟩ := Option.map_eq_some'.mp hrun
                  have hInv1 : LexInv LexState.rparenS
                      { l with width := 1, start := l.pos } := ⟨rfl, r, hdrop⟩
                  rw [← hb, ih _ _ _ hInv1 hts1]
                  simp [refOf, hdrop, refTokensD, flushPend]
                · by_cases h3 : c = '"'
                  · subst h3
                    rw [step_atom_quote hs hp hdrop] at hrun
                    obtain ⟨ts1, hts1, hb⟩ := Option.map_eq_some'.mp hrun
                    have hInv1 : LexInv LexState.dquoteS
                        { l with width := 1, start := l.pos, pos := l.pos + 1 } :=
                      ⟨Nat.le_succ _, hlt⟩
                    rw [← hb, ih _ _ _ hInv1 hts1]
                    have hq : subList l.input l.pos (l.pos + 1) = ['"'] := by
                      have := subList_extend (Nat.le_refl l.pos) hdrop
                      rwa [subList_self] at this
                    simp [refOf, hdrop, refTokensD, drop_succ_of_drop_eq hdrop, hq]
                  · by_cases hw : isWsChar c
                    · rw [step_atom_ws hs hp hdrop hw h1 h2 h3] at hrun
                      obtain ⟨ts1, hts1, hb⟩ := Option.map_eq_some'.mp hrun
                      have hInv1 : LexInv LexState.wsS
                          { l with width := 1, start := l.pos } := ⟨rfl, hp⟩
                      rw [← hb, ih _ _ _ hInv1 hts1]
                      simp [refOf, hdrop, refTokensD, flushPend, h1, h2, h3, hw]
                    · rw [step_atom_other hdrop (Bool.eq_false_iff.mpr hw)
                          h1 h2 h3] at hrun
                      obtain ⟨ts1, hts1, hb⟩ := Option.map_eq_some'.mp hrun
                      have hInv1 : LexInv LexState.atomS
                          { l with width := 1, pos := l.pos + 1 } :=
                        ⟨Nat.le_succ_of_le hs, hlt⟩
                      rw [← hb, ih _ _ _ hInv1 hts1]
                      simp [refOf, hdrop, refTokensD, h1, h2, h3, hw,
                        drop_succ_of_drop_eq hdrop, subList_extend hs hdrop]
      | dquoteS =>
          obtain ⟨hs, hp⟩ := hInv
          simp only [runLex] at hrun
          cases hdrop : l.input.drop l.pos with
          | nil =>
              rw [step_dquote_eof hdrop] at hrun
              obtain ⟨ts1, hts1, hb⟩ := Option.map_eq_some'.mp hrun
              have hInv1 : LexInv LexState.dquoteS { l with width := 0 } :=
                ⟨hs, hp⟩
              rw [← hb, ih _ _ _ hInv1 hts1]
              simp [refOf]
          | cons c r =>
              have hlt := lt_length_of_drop_eq hdrop
              by_cases h3 : c = '"'
              · subst h3
                rw [step_dquote_close hdrop] at hrun
                obtain ⟨ts1, hts1, hb⟩ := Option.map_eq_some'.mp hrun
                have hInv1 : LexInv LexState.atomS
                    { l with width := 1, pos := l.pos + 1, start := l.pos + 1 } :=
                  ⟨Nat.le_refl _, hlt⟩
                rw [← hb, ih _ _ _ hInv1 hts1]
                simp [refOf, hdrop, refTokensQ, drop_succ_of_drop_eq hdrop,
                  subList_extend hs hdrop, subList_self]
              · rw [step_dquote_other hdrop h3] at hrun
                obtain ⟨ts1, hts1, hb⟩ := Option.map_eq_some'.mp hrun
                have hInv1 : LexInv LexState.dquoteS
                    { l with width := 1, pos := l.pos + 1 } :=
                  ⟨Nat.le_succ_of_le hs, hlt⟩
                rw [← hb, ih _ _ _ hInv1 hts1]
                simp [refOf, hdrop, refTokensQ, h3,
                  drop_succ_of_drop_eq hdrop, subList_extend hs hdrop]
      | wsS =>
          obtain ⟨hst, hp⟩ := hInv
          simp only [runLex] at hrun
          cases hdrop : l.input.drop l.pos with
          | nil =>
              rw [step_ws_eof hdrop] at hrun
              obtain ⟨ts1, hts1, hb⟩ := Option.map_eq_some'.mp hrun
              have hInv1 : LexInv LexState.atomS { l with width := 0 } :=
                ⟨Nat.le_of_eq hst, hp⟩
              rw [← hb, ih _ _ _ hInv1 hts1]
              simp [refOf, hst, subList_self]
          | cons c r =>
              have hlt := lt_length_of_drop_eq hdrop
              by_cases hw : isWsChar c
              · have h1 : c ≠ '(' := by rintro rfl; simp [isWsChar] at hw
                have h2 : c ≠ ')' := by rintro rfl; simp [isWsChar] at hw
                have h3 : c ≠ '"' := by rintro rfl; simp [isWsChar] at hw
                rw [step_ws_ws hdrop hw] at hrun
                obtain ⟨ts1, hts1, hb⟩ := Option.map_eq_some'.mp hrun
                have hInv1 : LexInv LexState.wsS
                    { l with width := 1, pos := l.pos + 1, start := l.pos + 1 } :=
                  ⟨rfl, hlt⟩
                rw [← hb, ih _ _ _ hInv1 hts1]
                simp [refOf, hdrop, refTokensD, flushPend, h1, h2, h3, hw,
                  drop_succ_of_drop_eq hdrop]
              · rw [step_ws_other hdrop (Bool.eq_false_iff.mpr hw)] at hrun
                obtain ⟨ts1, hts1, hb⟩ := Option.map_eq_some'.mp hrun
                have hInv1 : LexInv LexState.atomS { l with width := 1 } :=
                  ⟨Nat.le_of_eq hst, hp⟩
                rw [← hb, ih _ _ _ hInv1 hts1]
                simp [refOf, hst, subList_self]
      | lparenS =>
          obtain ⟨hst, r, hdrop⟩ := hInv
          have hlt := lt_length_of_drop_eq hdrop
          simp only [runLex] at hrun
          rw [step_lparen hst hdrop] at hrun
          obtain ⟨ts1, hts1, hb⟩ := Option.map_eq_some'.mp hrun
          have hInv1 : LexInv LexState.atomS
              { l with pos := l.pos + 1, start := l.pos + 1 } :=
            ⟨Nat.le_refl _, hlt⟩
          rw [← hb, ih _ _ _ hInv1 hts1]
          simp [refOf, hdrop, refTokensD, flushPend, drop_succ_of_drop_eq hdrop,
            subList_self]
      | rparenS =>
          obtain ⟨hst, r, hdrop⟩ := hInv
          have hlt := lt_length_of_drop_eq hdrop
          simp only [runLex] at hrun
          rw [step_rparen hst hdrop] at hrun
          obtain ⟨ts1, hts1, hb⟩ := Option.map_eq_some'.mp hrun
          have hInv1 : LexInv LexState.atomS
              { l with pos := l.pos + 1, start := l.pos + 1 } :=
            ⟨Nat.le_refl _, hlt⟩
          rw [← hb, ih _ _ _ hInv1 hts1]
          simp [refOf, hdrop, refTokensD, flushPend, drop_succ_of_drop_eq hdrop,
            subList_self]

/-- Specialisation of the simulation theorem to a whole scan. -/
theorem scan_eq_ref {fuel : Nat} {s : List Char} {ts : List item}
    (h : scan fuel s = some ts) : ts = refTokensD s [] := by
  have h0 : LexInv LexState.atomS (initLexer s) := ⟨Nat.le_refl 0, Nat.zero_le _⟩
  have := runLex_eq_ref fuel LexState.atomS (initLexer s) ts h0 h
  simpa [refOf, initLexer, subList] using this

/-! ## Properties of the reference token functions -/

/-- Whitespace characters are not delimiters. -/
theorem wsChar_ne_delims {c : Char} (h : isWsChar c) :
    c ≠ '(' ∧ c ≠ ')' ∧ c ≠ '"' := by
  refine ⟨?_, ?_, ?_⟩ <;> rintro rfl <;> simp [isWsChar] at h

/-- Members of a flushed pending region are atom items. -/
theorem mem_flushPend {p : List Char} {t : item} (h : t ∈ flushPend p) :
    t = ⟨itemType.itemAtom, p⟩ := by
  unfold flushPend at h
  split at h <;> simp_all

/-- No reference token ever has the `itemError` kind. -/
theorem refTokens_no_error (N : Nat) :
    ∀ r : List Char, r.length ≤ N →
      (∀ p t, t ∈ refTokensD r p → t.typ ≠ itemType.itemError) ∧
      (∀ acc t, t ∈ refTokensQ r acc → t.typ ≠ itemType.itemError) := by
  induction N with
  | zero =>
      intro r hr
      have : r = [] := List.length_eq_zero.mp (Nat.le_zero.mp hr)
      subst this
      constructor
      · intro p t ht
        simp only [refTokensD] at ht
        rcases List.mem_append.mp ht with h | h
        · rw [mem_flushPend h]; simp
        · simp at h; rw [h]; simp
      · intro acc t ht
        simp only [refTokensQ] at ht
        simp at ht; rw [ht]; simp
  | succ N ihN =>
      intro r hr
      cases r with
      | nil =>
          constructor
          · intro p t ht
            simp only [refTokensD] at ht
            rcases List.mem_append.mp ht with h | h
            · rw [mem_flushPend h]; simp
            · simp at h; rw [h]; simp
          · intro acc t ht
            simp only [refTokensQ] at ht
            simp at ht; rw [ht]; simp
      | cons c rest =>
          have hrest : rest.length ≤ N := by
            simp at hr; omega
          have ih := ihN rest hrest
          constructor
          · intro p t ht
            simp only [refTokensD] at ht
            by_cases h1 : c = '('
            · rw [if_pos h1] at ht
              rcases List.mem_append.mp ht with h | h
              · rw [mem_flushPend h]; simp
              · rcases List.mem_cons.mp h with h | h
                · rw [h]; simp
                · exact ih.1 [] t h
            · rw [if_neg h1] at ht
              by_cases h2 : c = ')'
              · rw [if_pos h2] at ht
                rcases List.mem_append.mp ht with h | h
                · rw [mem_flushPend h]; simp
                · rcases List.mem_cons.mp h with h | h
                  · rw [h]; simp
                  · exact ih.1 [] t h
              · rw [if_neg h2] at ht
                by_cases h3 : c = '"'
                · rw [if_pos h3] at ht
                  rcases List.mem_append.mp ht with h | h
                  · rw [mem_flushPend h]; simp
                  · exact ih.2 ['"'] t h
                · rw [if_neg h3] at ht
                  by_cases hw : isWsChar c
                  · rw [if_pos hw] at ht
                    rcases List.mem_append.mp ht with h | h
                    · rw [mem_flushPend h]; simp
                    · exact ih.1 [] t h
                  · rw [if_neg hw] at ht
                    exact ih.1 (p ++ [c]) t ht
          · intro acc t ht
            simp only [refTokensQ] at ht
            by_cases h3 : c = '"'
            · rw [if_pos h3] at ht
              rcases List.mem_cons.mp ht with h | h
              · rw [h]; simp
              · exact ih.1 [] t h
            · rw [if_neg h3] at ht
              exact ih.2 (acc ++ [c]) t ht

/-- Length of a flushed pending region. -/
theorem flushPend_length (p : List Char) :
    (flushPend p).length = if p.isEmpty then 0 else 1 := by
  unfold flushPend
  by_cases hp : p = [] <;> simp [hp]

/-- Token-count formula for the reference functions: parens met outside
quoted literals, plus atom/quoted-atom runs, plus one `itemEOF`. -/
theorem refTokens_length (N : Nat) :
    ∀ r : List Char, r.length ≤ N →
      (∀ p, (refTokensD r p).length =
        parensOutside r + runsD r (!p.isEmpty) + 1) ∧
      (∀ acc, (refTokensQ r acc).length =
        parensInQuote r + runsQ r + 1) := by
  induction N with
  | zero =>
      intro r hr
      have : r = [] := List.length_eq_zero.mp (Nat.le_zero.mp hr)
      subst this
      constructor
      · intro p
        simp only [refTokensD, parensOutside, runsD, List.length_append,
          flushPend_length]
        by_cases hp : p.isEmpty <;> simp [hp]
      · intro acc
        simp [refTokensQ, parensInQuote, runsQ]
  | succ N ihN =>
      intro r hr
      cases r with
      | nil =>
          constructor
          · intro p
            simp only [refTokensD, parensOutside, runsD, List.length_append,
              flushPend_length]
            by_cases hp : p.isEmpty <;> simp [hp]
          · intro acc
            simp [refTokensQ, parensInQuote, runsQ]
      | cons c rest =>
          have hrest : rest.length ≤ N := by simp at hr; omega
          have ih := ihN rest hrest
          constructor
          · intro p
            simp only [refTokensD, parensOutside, runsD]
            by_cases h1 : c = '('
            · simp only [if_pos h1, List.length_append, List.length_cons,
                flushPend_length, ih.1]
              by_cases hp : p.isEmpty <;> (simp [hp]; omega)
            · simp only [if_neg h1]
              by_cases h2 : c = ')'
              · simp only [if_pos h2, List.length_append, List.length_cons,
                  flushPend_length, ih.1]
                by_cases hp : p.isEmpty <;> (simp [hp]; omega)
              · simp only [if_neg h2]
                by_cases h3 : c = '"'
                · simp only [if_pos h3, List.length_append,
                    flushPend_length, ih.2]
                  by_cases hp : p.isEmpty <;> first | (simp [hp]; omega) | simp [hp]
                · simp only [if_neg h3]
                  by_cases hw : isWsChar c
                  · simp only [if_pos hw, List.length_append,
                      flushPend_length, ih.1]
                    by_cases hp : p.isEmpty <;> first | (simp [hp]; omega) | simp [hp]
                  · simp only [if_neg hw, ih.1]
                    have hne : (p ++ [c]).isEmpty = false := by
                      simp [List.isEmpty_iff]
                    simp [hne]
          · intro acc
            simp only [refTokensQ, parensInQuote, runsQ]
            by_cases h3 : c = '"'
            · simp only [if_pos h3, List.length_cons, ih.1]
              simp
              omega
            · simp only [if_neg h3, ih.2]

/-- The final reference token is always `itemEOF` with empty text. -/
theorem refTokens_getLast (N : Nat) :
    ∀ r : List Char, r.length ≤ N →
      (∀ p, (refTokensD r p).getLast? = some ⟨itemType.itemEOF, []⟩) ∧
      (∀ acc, (refTokensQ r acc).getLast? = some ⟨itemType.itemEOF, []⟩) := by
  induction N with
  | zero =>
      intro r hr
      have : r = [] := List.length_eq_zero.mp (Nat.le_zero.mp hr)
      subst this
      exact ⟨fun p => by simp [refTokensD, List.getLast?_concat],
        fun acc => by simp [refTokensQ]⟩
  | succ N ihN =>
      intro r hr
      cases r with
      | nil =>
          exact ⟨fun p => by simp [refTokensD, List.getLast?_concat],
            fun acc => by simp [refTokensQ]⟩
      | cons c rest =>
          have hrest : rest.length ≤ N := by simp at hr; omega
          have ih := ihN rest hrest
          constructor
          · intro p
            simp only [refTokensD]
            by_cases h1 : c = '('
            · rw [if_pos h1, List.getLast?_append, ← List.singleton_append,
                List.getLast?_append, ih.1]
              simp [Option.or]
            · rw [if_neg h1]
              by_cases h2 : c = ')'
              · rw [if_pos h2, List.getLast?_append, ← List.singleton_append,
                  List.getLast?_append, ih.1]
                simp [Option.or]
              · rw [if_neg h2]
                by_cases h3 : c = '"'
                · rw [if_pos h3, List.getLast?_append, ih.2]
                  simp [Option.or]
                · rw [if_neg h3]
                  by_cases hw : isWsChar c
                  · rw [if_pos hw, List.getLast?_append, ih.1]
                    simp [Option.or]
                  · rw [if_neg hw, ih.1]
          · intro acc
            simp only [refTokensQ]
            by_cases h3 : c = '"'
            · rw [if_pos h3, ← List.singleton_append, List.getLast?_append,
                ih.1]
              simp [Option.or]
            · rw [if_neg h3, ih.2]

/-- A text fragment without any double-quote character. -/
def quoteFree (v : List Char) : Prop :=
  ∀ c ∈ v, c ≠ '"'

/-- Shape of an emitted token's text: either it contains no quote
character at all, or it is a whole quoted literal — an opening quote,
a quote-free middle, and a closing quote. -/
def wellQuotedTok (t : item) : Prop :=
  quoteFree t.val ∨ ∃ mid, t.val = '"' :: mid ++ ['"'] ∧ quoteFree mid

/-- Every reference token is well shaped with respect to quotes. -/
theorem refTokens_quote_shape (N : Nat) :
    ∀ r : List Char, r.length ≤ N →
      (∀ p, quoteFree p → ∀ t ∈ refTokensD r p, wellQuotedTok t) ∧
      (∀ acc, (∃ mid, acc = '"' :: mid ∧ quoteFree mid) →
        ∀ t ∈ refTokensQ r acc, wellQuotedTok t) := by
  induction N with
  | zero =>
      intro r hr
      have : r = [] := List.length_eq_zero.mp (Nat.le_zero.mp hr)
      subst this
      constructor
      · intro p hpf t ht
        simp only [refTokensD] at ht
        rcases List.mem_append.mp ht with h | h
        · rw [mem_flushPend h]; exact Or.inl hpf
        · simp at h; rw [h]; exact Or.inl (by intro c hc; simp at hc)
      · intro acc _ t ht
        simp only [refTokensQ] at ht
        simp at ht; rw [ht]; exact Or.inl (by intro c hc; simp at hc)
  | succ N ihN =>
      intro r hr
      cases r with
      | nil =>
          constructor
          · intro p hpf t ht
            simp only [refTokensD] at ht
            rcases List.mem_append.mp ht with h | h
            · rw [mem_flushPend h]; exact Or.inl hpf
            · simp at h; rw [h]; exact Or.inl (by intro c hc; simp at hc)
          · intro acc _ t ht
            simp only [refTokensQ] at ht
            simp at ht; rw [ht]; exact Or.inl (by intro c hc; simp at hc)
      | cons c rest =>
          have hrest : rest.length ≤ N := by simp at hr; omega
          have ih := ihN rest hrest
          have hnilpf : quoteFree ([] : List Char) := by
            intro c hc; simp at hc
          constructor
          · intro p hpf t ht
            simp only [refTokensD] at ht
            by_cases h1 : c = '('
            · rw [if_pos h1] at ht
              rcases List.mem_append.mp ht with h | h
              · rw [mem_flushPend h]; exact Or.inl hpf
              · rcases List.mem_cons.mp h with h | h
                · rw [h]
                  exact Or.inl (by intro d hd; simp at hd; simp [hd])
                · exact ih.1 [] hnilpf t h
            · rw [if_neg h1] at ht
              by_cases h2 : c = ')'
              · rw [if_pos h2] at ht
                rcases List.mem_append.mp ht with h | h
                · rw [mem_flushPend h]; exact Or.inl hpf
                · rcases List.mem_cons.mp h with h | h
                  · rw [h]
                    exact Or.inl (by intro d hd; simp at hd; simp [hd])
                  · exact ih.1 [] hnilpf t h
              · rw [if_neg h2] at ht
                by_cases h3 : c = '"'
                · rw [if_pos h3] at ht
                  rcases List.mem_append.mp ht with h | h
                  · rw [mem_flushPend h]; exact Or.inl hpf
                  · exact ih.2 ['"'] ⟨[], rfl, hnilpf⟩ t h
                · rw [if_neg h3] at ht
                  by_cases hw : isWsChar c
                  · rw [if_pos hw] at ht
                    rcases List.mem_append.mp ht with h | h
                    · rw [mem_flushPend h]; exact Or.inl hpf
                    · exact ih.1 [] hnilpf t h
                  · rw [if_neg hw] at ht
                    refine ih.1 (p ++ [c]) ?_ t ht
                    intro d hd
                    rcases List.mem_append.mp hd with h | h
                    · exact hpf d h
                    · simp at h; rw [h]; exact h3
          · intro acc hacc t ht
            obtain ⟨mid, rfl, hmid⟩ := hacc
            simp only [refTokensQ] at ht
            by_cases h3 : c = '"'
            · rw [if_pos h3] at ht
              rcases List.mem_cons.mp ht with h | h
              · rw [h]
                exact Or.inr ⟨mid, by simp, hmid⟩
              · exact ih.1 [] hnilpf t h
            · rw [if_neg h3] at ht
              refine ih.2 ('"' :: mid ++ [c]) ⟨mid ++ [c], by simp, ?_⟩ t ht
              intro d hd
              rcases List.mem_append.mp hd with h | h
              · exact hmid d h
              · simp at h; rw [h]; exact h3

/-- Skipping a leading whitespace run with an empty pending region does
not change the emitted tokens. -/
theorem refTokensD_dropWhile_ws :
    ∀ r : List Char, refTokensD (r.dropWhile isWsChar) [] = refTokensD r [] := by
  intro r
  induction r with
  | nil => rfl
  | cons c rest ih =>
      by_cases hw : isWsChar c
      · obtain ⟨hne1, hne2, hne3⟩ := wsChar_ne_delims hw
        rw [List.dropWhile_cons_of_pos (by simpa using hw), ih]
        conv_rhs => rw [refTokensD]
        rw [if_neg hne1, if_neg hne2, if_neg hne3, if_pos hw]
        simp [flushPend]
      · rw [List.dropWhile_cons_of_neg (by simpa using hw)]

/-- Collapsing whitespace runs does not change the emitted tokens. -/
theorem refTokens_collapse (N : Nat) :
    ∀ r : List Char, r.length ≤ N →
      (∀ p, refTokensD (collapseD r) p = refTokensD r p) ∧
      (∀ acc, refTokensQ (collapseQ r) acc = refTokensQ r acc) := by
  induction N with
  | zero =>
      intro r hr
      have : r = [] := List.length_eq_zero.mp (Nat.le_zero.mp hr)
      subst this
      exact ⟨fun p => by rw [collapseD], fun acc => by rw [collapseQ]⟩
  | succ N ihN =>
      intro r hr
      cases r with
      | nil => exact ⟨fun p => by rw [collapseD], fun acc => by rw [collapseQ]⟩
      | cons c rest =>
          have hrest : rest.length ≤ N := by simp at hr; omega
          have ih := ihN rest hrest
          constructor
          · intro p
            by_cases h3 : c = '"'
            · subst h3
              rw [collapseD, if_pos rfl]
              conv_lhs => rw [refTokensD]
              conv_rhs => rw [refTokensD]
              rw [if_neg (by decide), if_neg (by decide), if_pos rfl,
                if_neg (by decide), if_neg (by decide), if_pos rfl,
                ih.2]
            · by_cases hw : isWsChar c
              · obtain ⟨hne1, hne2, _⟩ := wsChar_ne_delims hw
                rw [collapseD, if_neg h3, if_pos hw]
                conv_lhs => rw [refTokensD]
                conv_rhs => rw [refTokensD]
                rw [if_neg (by decide), if_neg (by decide), if_neg (by decide),
                  if_pos (by decide), if_neg hne1, if_neg hne2, if_neg h3,
                  if_pos hw]
                have hihdw := (ihN (rest.dropWhile isWsChar)
                  (Nat.le_trans (dropWhileWs_length_le rest) hrest)).1
                rw [hihdw [], refTokensD_dropWhile_ws rest]
              · rw [collapseD, if_neg h3, if_neg hw]
                by_cases h1 : c = '('
                · subst h1
                  conv_lhs => rw [refTokensD]
                  conv_rhs => rw [refTokensD]
                  rw [if_pos rfl, if_pos rfl, ih.1]
                · by_cases h2 : c = ')'
                  · subst h2
                    conv_lhs => rw [refTokensD]
                    conv_rhs => rw [refTokensD]
                    rw [if_neg (by decide), if_pos rfl, if_neg (by decide),
                      if_pos rfl, ih.1]
                  · conv_lhs => rw [refTokensD]
                    conv_rhs => rw [refTokensD]
                    rw [if_neg h1, if_neg h2, if_neg h3, if_neg hw,
                      if_neg h1, if_neg h2, if_neg h3, if_neg hw, ih.1]
          · intro acc
            by_cases h3 : c = '"'
            · subst h3
              rw [collapseQ, if_pos rfl]
              conv_lhs => rw [refTokensQ]
              conv_rhs => rw [refTokensQ]
              rw [if_pos rfl, if_pos rfl, ih.1]
            · rw [collapseQ, if_neg h3]
              conv_lhs => rw [refTokensQ]
              conv_rhs => rw [refTokensQ]
              rw [if_neg h3, if_neg h3, ih.2]

/-! ## Consumption behaviour of the parser -/

/-- Tokens remaining after `d` pending element-chains of `parse` have
been closed, scanning left to right: a `LeftParen` opens one more chain,
a `RightParen` or `EndOfInput` closes the current one, an atom stays in
the current one; `none` means the chains are never all closed (the
parser would read past the closed channel and panic), or an `itemError`
is met (panic as well). -/
def remTokens : List item → Nat → Option (List item)
  | ts, 0 => some ts
  | [], Nat.succ _ => none
  | ⟨itemType.itemLParen, _⟩ :: r, Nat.succ d => remTokens r (d + 2)
  | ⟨itemType.itemRParen, _⟩ :: r, Nat.succ d => remTokens r d
  | ⟨itemType.itemEOF, _⟩ :: r, Nat.succ d => remTokens r d
  | ⟨itemType.itemAtom, _⟩ :: r, Nat.succ d => remTokens r (d + 1)
  | ⟨itemType.itemError, _⟩ :: _, Nat.succ _ => none

/-- What `remTokens` returns is a suffix, in particular not longer. -/
theorem remTokens_le (N : Nat) :
    ∀ ts : List item, ts.length ≤ N →
      ∀ d r, remTokens ts d = some r → r.length ≤ ts.length := by
  induction N with
  | zero =>
      intro ts hts d r h
      have : ts = [] := List.length_eq_zero.mp (Nat.le_zero.mp hts)
      subst this
      cases d with
      | zero =>
          simp only [remTokens, Option.some.injEq] at h
          subst h
          exact Nat.le_refl _
      | succ d => exact absurd h (by simp [remTokens])
  | succ N ihN =>
      intro ts hts d r h
      cases d with
      | zero =>
          simp only [remTokens, Option.some.injEq] at h
          subst h
          exact Nat.le_refl _
      | succ d =>
          cases ts with
          | nil => exact absurd h (by simp [remTokens])
          | cons t rest =>
              have hrest : rest.length ≤ N := by simp at hts; omega
              obtain ⟨ty, v⟩ := t
              have hle : r.length ≤ rest.length := by
                cases ty <;> simp only [remTokens] at h
                · exact absurd h (by simp)
                · exact ihN rest hrest d r h
                · exact ihN rest hrest (d + 2) r h
                · exact ihN rest hrest d r h
                · exact ihN rest hrest (d + 1) r h
              exact Nat.le_trans hle (by simp)

/-- Closing `d + 1` chains is closing one chain and then `d` more. -/
theorem remTokens_add (N : Nat) :
    ∀ ts : List item, ts.length ≤ N → ∀ d,
      remTokens ts (d + 1) =
        (remTokens ts 1).bind (fun x => remTokens x d) := by
  induction N with
  | zero =>
      intro ts hts d
      have : ts = [] := List.length_eq_zero.mp (Nat.le_zero.mp hts)
      subst this
      simp [remTokens]
  | succ N ihN =>
      intro ts hts d
      cases ts with
      | nil => simp [remTokens]
      | cons t rest =>
          have hrest : rest.length ≤ N := by simp at hts; omega
          obtain ⟨ty, v⟩ := t
          cases ty <;> simp only [remTokens]
          · -- itemError
            simp
          · -- itemRParen
            simp [remTokens]
          · -- itemLParen
            have hL : remTokens rest (d + 2) =
                (remTokens rest 1).bind (fun x => remTokens x (d + 1)) :=
              ihN rest hrest (d + 1)
            have hR : remTokens rest 2 =
                (remTokens rest 1).bind (fun x => remTokens x 1) :=
              ihN rest hrest 1
            rw [hL, hR, Option.bind_assoc]
            cases hx : remTokens rest 1 with
            | none => simp
            | some x =>
                simp only [Option.some_bind]
                exact ihN x (Nat.le_trans
                  (remTokens_le rest.length rest (Nat.le_refl _) 1 x hx)
                  hrest) d
          · -- itemEOF
            simp [remTokens]
          · -- itemAtom
            exact ihN rest hrest d

/-- The suffix a successful `parse` call leaves unread is exactly the
suffix after its element-chain closes. -/
theorem parse_consumes (n : Nat) :
    ∀ (ts : List item) (s : Option Sexpr) (r : List item),
      parse n ts = ParseOut.ok s r → remTokens ts 1 = some r := by
  induction n with
  | zero =>
      intro ts s r h
      exact absurd h (by simp [parse])
  | succ n ih =>
      intro ts s r h
      cases ts with
      | nil => exact absurd h (by simp [parse])
      | cons t rest =>
          obtain ⟨ty, v⟩ := t
          cases ty <;> simp only [parse] at h
          · -- itemError
            cases h
          · -- itemRParen
            cases h
            simp [remTokens]
          · -- itemLParen
            split at h
            · rename_i s1 r1 hp1
              split at h
              · rename_i s2 r2 hp2
                cases h
                have h1 := ih rest s1 r1 hp1
                have h2 := ih r1 s2 r hp2
                show remTokens rest 2 = some r
                have hadd := remTokens_add rest.length rest (Nat.le_refl _) 1
                rw [hadd, h1, Option.some_bind, h2]
              · rename_i hne
                exact (hne _ _ h).elim
            · rename_i hne
              exact (hne _ _ h).elim
          · -- itemEOF
            cases h
            simp [remTokens]
          · -- itemAtom
            split at h
            · rename_i s1 r1 hp1
              cases h
              exact ih rest s1 r hp1
            · rename_i hne
              exact (hne _ _ h).elim

/-! ## Divergence lemmas -/

/-- From the quoted-atom state at end of input, the machine never
finishes: `accept` fails without moving and `next` does not advance, so
`lexDQuote` returns itself on an unchanged configuration. -/
theorem runLex_dquote_eof_none :
    ∀ (n : Nat) (l : Lexer), l.input.drop l.pos = [] →
      runLex n (some LexState.dquoteS) l = none := by
  intro n
  induction n with
  | zero => intro l _; rfl
  | succ n ih =>
      intro l h
      simp only [runLex]
      rw [step_dquote_eof h]
      simp [ih { l with width := 0 } (by simpa using h)]

/-- If one state-function call leads to a configuration from which the
run loop never finishes, it never finishes from here either. -/
theorem runLex_none_of_step (st : LexState) (l : Lexer) (ts1 : List item)
    (st' : LexState) (l' : Lexer)
    (hstep : stepLex st l = (ts1, some st', l'))
    (hnone : ∀ n, runLex n (some st') l' = none) :
    ∀ n, runLex n (some st) l = none := by
  intro n
  cases n with
  | zero => rfl
  | succ n =>
      simp only [runLex]
      rw [hstep]
      simp [hnone n]

/-- `sexprUnparse` never finishes on a non-nil s-expression (its `for`
loop never advances `s`), while a nil argument immediately yields the
empty sequence. -/
theorem sexprUnparse_some_none :
    ∀ (n : Nat) (s : Sexpr), sexprUnparse n (some s) = none := by
  intro n
  induction n with
  | zero => intro s; rfl
  | succ n ih =>
      intro s
      cases hli : s.list with
      | none =>
          cases hsty : s.sty with
          | sexprAtom =>
              cases hn : s.next with
              | none => simp [sexprUnparse, hli, hsty, hn, ih]
              | some nx => simp [sexprUnparse, hli, hsty, hn, ih]
          | sexprList =>
              cases hn : s.next with
              | none => simp [sexprUnparse, hli, hsty, hn, ih]
              | some nx => simp [sexprUnparse, hli, hsty, hn, ih]
      | some lx =>
          cases hsty : s.sty with
          | sexprAtom =>
              cases hn : s.next with
              | none => simp [sexprUnparse, hli, hsty, hn, ih]
              | some nx => simp [sexprUnparse, hli, hsty, hn, ih]
          | sexprList =>
              cases hn : s.next with
              | none => simp [sexprUnparse, hli, hsty, hn, ih]
              | some nx => simp [sexprUnparse, hli, hsty, hn, ih]

/-! ## Concrete inputs and trees used by the claims -/

/-- The test expression of `main`. -/
def testExpr : List Char := ("(test (test2 \"i am long\" test3) blah)").toList

/-- The tree `parse` actually builds for `testExpr`: note the middle
atom's value keeps both quote characters and has the same `atomBasic`
type as every other atom. -/
def c4Tree : Sexpr :=
  Sexpr.mk atomType.atomInvalid sexprType.sexprList none
    (some (Sexpr.mk atomType.atomBasic sexprType.sexprAtom
      (some (Sexpr.mk atomType.atomInvalid sexprType.sexprList
        (some (Sexpr.mk atomType.atomBasic sexprType.sexprAtom none none
          (("blah").toList)))
        (some (Sexpr.mk atomType.atomBasic sexprType.sexprAtom
          (some (Sexpr.mk atomType.atomBasic sexprType.sexprAtom
            (some (Sexpr.mk atomType.atomBasic sexprType.sexprAtom none none
              (("test3").toList)))
            none (("\"i am long\"").toList)))
          none (("test2").toList)))
        []))
      none (("test").toList)))
    []

/-- The tree `parse` builds for `((a)) b`: a list whose head is the
one-element list `(a)` and whose following sibling is the atom `b`. -/
def c8Tree : Sexpr :=
  Sexpr.mk atomType.atomInvalid sexprType.sexprList
    (some (Sexpr.mk atomType.atomBasic sexprType.sexprAtom none none ['b']))
    (some (Sexpr.mk atomType.atomInvalid sexprType.sexprList none
      (some (Sexpr.mk atomType.atomBasic sexprType.sexprAtom none none ['a']))
      []))
    []

/-! ## The claims -/

/-- Claim C1: on the input `(a "b`, whose opening quote is never closed,
the scanner does NOT terminate: for every fuel bound the `run` loop is
still going, and no Error item (or any item) is ever delivered.  The
claim's required behaviour — emitting an `Error` item "unterminated
quoted atom" and moving to the final state — is absent from `lexDQuote`:
at end of input `accept` and `next` both leave the position unchanged
and the state function returns itself, so the loop spins forever.  This
contradicts the specified mandatory end-of-input case. -/
theorem c1_unterminated_quote_diverges :
    ∀ fuel : Nat,
      runLex fuel (some LexState.atomS) (initLexer (("(a \"b").toList)) = none := by
  have h8 : ∀ n, runLex n (some LexState.dquoteS)
      ⟨("(a \"b").toList, 3, 5, 1⟩ = none :=
    fun n => runLex_dquote_eof_none n _ (by rfl)
  have h7 := runLex_none_of_step LexState.dquoteS ⟨("(a \"b").toList, 3, 4, 1⟩
    [] LexState.dquoteS ⟨("(a \"b").toList, 3, 5, 1⟩ rfl h8
  have h6 := runLex_none_of_step LexState.atomS ⟨("(a \"b").toList, 3, 3, 1⟩
    [] LexState.dquoteS ⟨("(a \"b").toList, 3, 4, 1⟩ rfl h7
  have h5 := runLex_none_of_step LexState.wsS ⟨("(a \"b").toList, 3, 3, 1⟩
    [] LexState.atomS ⟨("(a \"b").toList, 3, 3, 1⟩ rfl h6
  have h4 := runLex_none_of_step LexState.wsS ⟨("(a \"b").toList, 2, 2, 1⟩
    [] LexState.wsS ⟨("(a \"b").toList, 3, 3, 1⟩ rfl h5
  have h3 := runLex_none_of_step LexState.atomS ⟨("(a \"b").toList, 1, 2, 1⟩
    [⟨itemType.itemAtom, ['a']⟩] LexState.wsS ⟨("(a \"b").toList, 2, 2, 1⟩
    rfl h4
  have h2 := runLex_none_of_step LexState.atomS ⟨("(a \"b").toList, 1, 1, 1⟩
    [] LexState.atomS ⟨("(a \"b").toList, 1, 2, 1⟩ rfl h3
  have h1 := runLex_none_of_step LexState.lparenS ⟨("(a \"b").toList, 0, 0, 1⟩
    [⟨itemType.itemLParen, ['(']⟩] LexState.atomS ⟨("(a \"b").toList, 1, 1, 1⟩
    rfl h2
  have h0 := runLex_none_of_step LexState.atomS ⟨("(a \"b").toList, 0, 0, 0⟩
    [] LexState.lparenS ⟨("(a \"b").toList, 0, 0, 1⟩ rfl h1
  exact fun fuel => h0 fuel

/-- Claim C2: round-trip unparsing fails because `sexprUnparse` never
terminates on any non-null tree: its `for s != nil` loop never advances
`s`, so after emitting the element once it emits it again forever.
Concretely, the canonical text `a` parses to the atom tree, yet
unparsing that tree completes for no fuel bound; only a null root
yields the empty sequence as specified. -/
theorem c2_unparse_diverges :
    (scan 10 ['a']).map (parse 5) =
      some (ParseOut.ok (some (Sexpr.mk atomType.atomBasic
        sexprType.sexprAtom none none ['a'])) []) ∧
    (∀ (fuel : Nat) (s : Sexpr), sexprUnparse fuel (some s) = none) ∧
    (∀ fuel : Nat, sexprUnparse fuel none = some []) := by
  refine ⟨rfl, fun fuel s => sexprUnparse_some_none fuel s, fun fuel => ?_⟩
  cases fuel <;> rfl

/-- Claim C3 (counterexample): scanning the quoted literal `"ab"` emits
an atom item whose text is the full four-character slice including both
quote characters — not the two characters between them. -/
theorem c3_counterexample :
    scan 20 (("\"ab\"").toList) =
      some [⟨itemType.itemAtom, ("\"ab\"").toList⟩,
        ⟨itemType.itemEOF, []⟩] ∧
    ("\"ab\"").toList ≠ ("ab").toList ∧
    '"' ∈ ("\"ab\"").toList :=
  ⟨rfl, by decide, by decide⟩

/-- Claim C3 (amended): for every terminating scan, each emitted item's
text either contains no quote character, or is a whole quoted literal
with BOTH its delimiting quote characters included: an opening quote, a
quote-free middle, and a closing quote. -/
theorem c3_quoted_tokens_include_quotes :
    ∀ (s : List Char) (fuel : Nat) (ts : List item),
      scan fuel s = some ts → ∀ t ∈ ts, wellQuotedTok t := by
  intro s fuel ts h t ht
  rw [scan_eq_ref h] at ht
  exact (refTokens_quote_shape s.length s (Nat.le_refl _)).1 []
    (by intro c hc; simp at hc) t ht

/-- Witness for C3's amended theorem at the input `"ab"`. -/
theorem c3_witness :
    scan 20 (("\"ab\"").toList) =
      some [⟨itemType.itemAtom, ("\"ab\"").toList⟩,
        ⟨itemType.itemEOF, []⟩] ∧
    (∀ t ∈ [(⟨itemType.itemAtom, ("\"ab\"").toList⟩ : item),
        ⟨itemType.itemEOF, []⟩], wellQuotedTok t) :=
  ⟨rfl, c3_quoted_tokens_include_quotes (("\"ab\"").toList) 20 _ rfl⟩

/-- Claim C4 (counterexample): parsing the test expression yields the
tree `c4Tree`, whose middle atom's value is the eleven characters
`"i am long"` with the quote characters kept, not the nine characters
between them, and whose atom type is `atomBasic` like every other atom
(no quoted marking exists in the data model). -/
theorem c4_counterexample :
    (scan 100 testExpr).map (parse 50) =
      some (ParseOut.ok (some c4Tree) []) ∧
    (("\"i am long\"").toList ≠ ("i am long").toList) ∧
    '"' ∈ ("\"i am long\"").toList :=
  ⟨rfl, by decide, by decide⟩

/-- Claim C4 (amended): parsing the test expression yields exactly the
tree List[ Atom(test), List[ Atom(test2), Atom(`"i am long"` with the
quote characters included, atom type `atomBasic` like all others),
Atom(test3) ], Atom(blah) ]. -/
theorem c4_parse_test_expr :
    (scan 100 testExpr).map (parse 50) =
      some (ParseOut.ok (some c4Tree) []) := rfl

/-- Claim C5 (counterexample): on the input `"("` — a quoted parenthesis
— the scanner emits 2 items (the quoted atom and `itemEOF`), but the
claimed formula, with the count of ALL parenthesis characters, predicts
1 + 1 + 1 = 3: a parenthesis inside a quoted literal produces no
parenthesis item. -/
theorem c5_counterexample :
    scan 20 ['"', '(', '"'] =
      some [⟨itemType.itemAtom, ['"', '(', '"']⟩, ⟨itemType.itemEOF, []⟩] ∧
    rawParens ['"', '(', '"'] + runsD ['"', '(', '"'] false + 1 = 3 ∧
    ([(⟨itemType.itemAtom, ['"', '(', '"']⟩ : item),
      ⟨itemType.itemEOF, []⟩]).length = 2 :=
  ⟨rfl, by decide, rfl⟩

/-- Claim C5 (amended): for every input on which the scanner terminates,
the number of emitted items is (parenthesis characters NOT inside quoted
literals) + (atom and quoted-atom runs) + 1, and the final item is
always `itemEOF` with empty text. -/
theorem c5_token_count :
    ∀ (s : List Char) (fuel : Nat) (ts : List item),
      scan fuel s = some ts →
      ts.length = parensOutside s + runsD s false + 1 ∧
      ts.getLast? = some ⟨itemType.itemEOF, []⟩ := by
  intro s fuel ts h
  rw [scan_eq_ref h]
  constructor
  · have := (refTokens_length s.length s (Nat.le_refl _)).1 []
    simpa using this
  · exact (refTokens_getLast s.length s (Nat.le_refl _)).1 []

/-- Witness for C5's amended theorem at the input `(a)`. -/
theorem c5_witness :
    scan 20 (("(a)").toList) =
      some [⟨itemType.itemLParen, ['(']⟩, ⟨itemType.itemAtom, ['a']⟩,
        ⟨itemType.itemRParen, [')']⟩, ⟨itemType.itemEOF, []⟩] ∧
    ([(⟨itemType.itemLParen, ['(']⟩ : item), ⟨itemType.itemAtom, ['a']⟩,
        ⟨itemType.itemRParen, [')']⟩, ⟨itemType.itemEOF, []⟩]).length =
      parensOutside (("(a)").toList) + runsD (("(a)").toList) false + 1 ∧
    ([(⟨itemType.itemLParen, ['(']⟩ : item), ⟨itemType.itemAtom, ['a']⟩,
        ⟨itemType.itemRParen, [')']⟩,
        ⟨itemType.itemEOF, []⟩]).getLast? = some ⟨itemType.itemEOF, []⟩ :=
  ⟨rfl, (c5_token_count (("(a)").toList) 20 _ rfl).1,
    (c5_token_count (("(a)").toList) 20 _ rfl).2⟩

/-- Claim C6 (counterexample): on the input `)` the scanner terminates,
emitting the `itemRParen` and `itemEOF` items, but the top-level `parse`
stops after reading the unmatched `itemRParen` alone: the final
`itemEOF` is left unconsumed on the stream. -/
theorem c6_counterexample :
    scan 20 [')'] =
      some [⟨itemType.itemRParen, [')']⟩, ⟨itemType.itemEOF, []⟩] ∧
    parse 10 [⟨itemType.itemRParen, [')']⟩, ⟨itemType.itemEOF, []⟩] =
      ParseOut.ok none [⟨itemType.itemEOF, []⟩] ∧
    ([(⟨itemType.itemEOF, []⟩ : item)] ≠ ([] : List item)) :=
  ⟨rfl, rfl, by decide⟩

/-- Claim C6 (amended): the top-level `parse` consumes exactly the
prefix of the item stream up to the point where its top-level element
chain closes, as computed by `remTokens · 1`: each `itemRParen` or
`itemEOF` closes the current chain and each `itemLParen` opens a nested
one.  In particular the whole stream is consumed exactly when no
unmatched `itemRParen` precedes the final `itemEOF`; an unmatched
closing parenthesis stops the parse early, and an unmatched opening
parenthesis makes `remTokens` (and the parser) run past the stream. -/
theorem c6_parse_consumption :
    ∀ (src : List Char) (f1 f2 : Nat) (ts : List item) (s : Option Sexpr)
      (r : List item),
      scan f1 src = some ts → parse f2 ts = ParseOut.ok s r →
      remTokens ts 1 = some r := by
  intro src f1 f2 ts s r hscan hparse
  exact parse_consumes f2 ts s r hparse

/-- Witness for C6's amended theorem at the input `(a)`. -/
theorem c6_witness :
    scan 20 (("(a)").toList) =
      some [⟨itemType.itemLParen, ['(']⟩, ⟨itemType.itemAtom, ['a']⟩,
        ⟨itemType.itemRParen, [')']⟩, ⟨itemType.itemEOF, []⟩] ∧
    parse 10 [⟨itemType.itemLParen, ['(']⟩, ⟨itemType.itemAtom, ['a']⟩,
        ⟨itemType.itemRParen, [')']⟩, ⟨itemType.itemEOF, []⟩] =
      ParseOut.ok (some (Sexpr.mk atomType.atomInvalid sexprType.sexprList
        none (some (Sexpr.mk atomType.atomBasic sexprType.sexprAtom none
          none ['a'])) [])) [] ∧
    remTokens [⟨itemType.itemLParen, ['(']⟩, ⟨itemType.itemAtom, ['a']⟩,
        ⟨itemType.itemRParen, [')']⟩, ⟨itemType.itemEOF, []⟩] 1 = some [] :=
  ⟨rfl, rfl, c6_parse_consumption (("(a)").toList) 20 10 _ _ _ rfl rfl⟩

/-- Claim C7 (counterexample): when an `itemError` item reaches `parse`,
the parse aborts through the `default:` branch with the fixed runtime
panic `Bad lex item type` — the same output for any scanner error text,
so nothing wraps the scanner's message (and items carry no source
offsets at all: an `item` is just a kind and a text). -/
theorem c7_counterexample :
    parse 5 [⟨itemType.itemError, ("boom").toList⟩] =
      ParseOut.panicked badLexMsg ∧
    parse 5 [⟨itemType.itemError, ("zap").toList⟩] =
      ParseOut.panicked badLexMsg ∧
    badLexMsg ≠ ("boom").toList ∧ badLexMsg ≠ ("zap").toList :=
  ⟨rfl, rfl, by decide, by decide⟩

/-- Claim C7 (amended): whenever an `itemError` item reaches the parser
it aborts the parse — but by panicking with the fixed message `Bad lex
item type`, producing no ParseError value, carrying neither the
scanner's error text nor any source byte-offset range (items do not
record offsets). -/
theorem c7_error_token_panics :
    ∀ (n : Nat) (v : List Char) (rest : List item),
      parse (n + 1) (⟨itemType.itemError, v⟩ :: rest) =
        ParseOut.panicked badLexMsg :=
  fun _ _ _ => rfl

/-- Claim C8: the depth-first numbering of `_sexprToDotFile` is NOT
injective.  On the tree parsed from `((a)) b`, the branch for a list
with a non-nil head but nil `next` returns the stale counter `id + 1`,
so the sibling atom `b` is given the same identifier 3 as the already
visited atom `a`: two records named `sx3` are emitted, contradicting the
function's own stated purpose of uniquely naming the elements. -/
theorem c8_dot_duplicate_ids :
    (scan 100 (("((a)) b").toList)).map (parse 50) =
      some (ParseOut.ok (some c8Tree) []) ∧
    sexprToDotFile 50 c8Tree =
      some ([DotLine.recList 1, DotLine.recList 2, DotLine.recAtom 3 ['a'],
        DotLine.edgeList 2 3, DotLine.edgeList 1 2, DotLine.recAtom 3 ['b'],
        DotLine.edgeNext 1 3], 5) ∧
    ¬ (dotRecordIds [DotLine.recList 1, DotLine.recList 2,
        DotLine.recAtom 3 ['a'], DotLine.edgeList 2 3, DotLine.edgeList 1 2,
        DotLine.recAtom 3 ['b'], DotLine.edgeNext 1 3]).Nodup :=
  ⟨rfl, rfl, by decide⟩

/-- Claim C9: two inputs with the same whitespace collapse (i.e.
differing only in the length and composition of whitespace runs outside
quoted literals) produce, whenever both scans terminate, identical item
streams and hence identical parses. -/
theorem c9_ws_invariance :
    ∀ (t1 t2 : List Char) (f1 f2 pf : Nat) (k1 k2 : List item),
      collapseD t1 = collapseD t2 →
      scan f1 t1 = some k1 → scan f2 t2 = some k2 →
      k1 = k2 ∧ parse pf k1 = parse pf k2 := by
  intro t1 t2 f1 f2 pf k1 k2 hc h1 h2
  have e1 : k1 = refTokensD t1 [] := scan_eq_ref h1
  have e2 : k2 = refTokensD t2 [] := scan_eq_ref h2
  have r1 : refTokensD (collapseD t1) [] = refTokensD t1 [] :=
    (refTokens_collapse t1.length t1 (Nat.le_refl _)).1 []
  have r2 : refTokensD (collapseD t2) [] = refTokensD t2 [] :=
    (refTokens_collapse t2.length t2 (Nat.le_refl _)).1 []
  have hk : k1 = k2 := by rw [e1, e2, ← r1, ← r2, hc]
  exact ⟨hk, by rw [hk]⟩

/-- Witness for C9 at the inputs `a \t b` (space, tab, space) and
`a b`. -/
theorem c9_witness :
    collapseD ['a', ' ', '\t', ' ', 'b'] = collapseD ['a', ' ', 'b'] ∧
    scan 20 ['a', ' ', '\t', ' ', 'b'] =
      some [⟨itemType.itemAtom, ['a']⟩, ⟨itemType.itemAtom, ['b']⟩,
        ⟨itemType.itemEOF, []⟩] ∧
    scan 20 ['a', ' ', 'b'] =
      some [⟨itemType.itemAtom, ['a']⟩, ⟨itemType.itemAtom, ['b']⟩,
        ⟨itemType.itemEOF, []⟩] ∧
    ([(⟨itemType.itemAtom, ['a']⟩ : item), ⟨itemType.itemAtom, ['b']⟩,
        ⟨itemType.itemEOF, []⟩] =
      [(⟨itemType.itemAtom, ['a']⟩ : item), ⟨itemType.itemAtom, ['b']⟩,
        ⟨itemType.itemEOF, []⟩]) ∧
    parse 10 [⟨itemType.itemAtom, ['a']⟩, ⟨itemType.itemAtom, ['b']⟩,
        ⟨itemType.itemEOF, []⟩] =
      parse 10 [⟨itemType.itemAtom, ['a']⟩, ⟨itemType.itemAtom, ['b']⟩,
        ⟨itemType.itemEOF, []⟩] :=
  ⟨by simp [collapseD, collapseQ, isWsChar, List.dropWhile], rfl, rfl,
    (c9_ws_invariance ['a', ' ', '\t', ' ', 'b'] ['a', ' ', 'b'] 20 20 10 _ _
      (by simp [collapseD, collapseQ, isWsChar, List.dropWhile]) rfl rfl).1,
    (c9_ws_invariance ['a', ' ', '\t', ' ', 'b'] ['a', ' ', 'b'] 20 20 10 _ _
      (by simp [collapseD, collapseQ, isWsChar, List.dropWhile]) rfl rfl).2⟩

/-- Claim C10: on every input on which the scanner terminates, no
emitted item has the `itemError` kind — the enumeration member is
declared but no state function constructs it, so the parser's Error
branch is unreachable from the scanner's output. -/
theorem c10_no_error_tokens :
    ∀ (s : List Char) (fuel : Nat) (ts : List item),
      scan fuel s = some ts → ∀ t ∈ ts, t.typ ≠ itemType.itemError := by
  intro s fuel ts h t ht
  rw [scan_eq_ref h] at ht
  exact (refTokens_no_error s.length s (Nat.le_refl _)).1 [] t ht

/-- Witness for C10 at the input `(a)`. -/
theorem c10_witness :
    scan 20 (("(a)").toList) =
      some [⟨itemType.itemLParen, ['(']⟩, ⟨itemType.itemAtom, ['a']⟩,
        ⟨itemType.itemRParen, [')']⟩, ⟨itemType.itemEOF, []⟩] ∧
    (∀ t ∈ [(⟨itemType.itemLParen, ['(']⟩ : item),
        ⟨itemType.itemAtom, ['a']⟩, ⟨itemType.itemRParen, [')']⟩,
        ⟨itemType.itemEOF, []⟩], t.typ ≠ itemType.itemError) :=
  ⟨rfl, c10_no_error_tokens (("(a)").toList) 20 _ rfl⟩
